import Mathlib

/-!
Verification development for the TopoSem graph analyzer
(4-GraphAnalyzer: extract_dot_nodes.py, SearchPath.py, CalculateScore.py).

The Python code is shallowly embedded as executable Lean definitions:

* graph records (the graphinfo JSON consumed by DirectedGraphPathFinder and
  load_graph_info) become the structures GNode, GEdge, Graph;
* Python dicts become association lists with insert-or-overwrite semantics
  (pyInsert), preserving insertion order and last-value-wins lookup;
* the recursive reverse DFS of DirectedGraphPathFinder is embedded with an
  explicit fuel parameter (Python has no such bound; sufficiency of the
  fuel used by the wrapper is proved below, which is exactly the
  termination argument for the Python recursion);
* the tree dictionaries of the forest builder and splitter become the
  mutual inductives PTree and PForest; the nested path lists consumed by
  CalculateScore become the mutual inductives PathL and PathLL;
* Python numbers are modeled as rationals; optional numeric attributes
  (cost, stealth, centrality) are Option values, absent meaning the JSON
  value null or a missing key.
-/

namespace TopoSem

/-- A node record of the graphinfo JSON. The field Ty models the JSON key
named Type (a reserved word in Lean); it is an Option because the Python
code reads it with dict.get, tolerating records without the key. -/
structure GNode where
  ID : String
  Ty : Option String
  centrality : Option ℚ
deriving DecidableEq

/-- An edge record of the graphinfo JSON: source and target node ids, the
edge type string, and the optional numeric cost and stealth attributes. -/
structure GEdge where
  source : String
  target : String
  type : String
  cost : Option ℚ
  stealth : Option ℚ
deriving DecidableEq

/-- The graph data loaded by DirectedGraphPathFinder.__init__: the node
list and edge list of the JSON document. -/
structure Graph where
  nodes : List GNode
  edges : List GEdge
deriving DecidableEq

/-- nodes_info lookup: the dict built by the comprehension
keyed on node ID maps each ID to the last node record carrying it. -/
def nodesInfo (g : Graph) (id : String) : Option GNode :=
  g.nodes.reverse.find? (fun n => n.ID = id)

/-- The Type attribute of a node id, as read by
nodes_info.get(id, dict()).get(Type) in SearchPath.py. -/
def typeOf (g : Graph) (id : String) : Option String :=
  (nodesInfo g id).bind (fun n => n.Ty)

/-- _build_predecessor_map: for every edge with truthy (nonempty) source
and target, the source is appended to the predecessor list of the target.
Looking the map up at t yields the sources of the kept edges into t,
in edge order. -/
def preds (g : Graph) (t : String) : List String :=
  (g.edges.filter
    (fun e => decide (e.source ≠ "") && decide (e.target ≠ "") && decide (e.target = t))).map
    (fun e => e.source)

/-- Sequential accumulation of the recursive DFS results: the Python code
appends into one shared list across the loop over branch inputs, which is
concatenation in traversal order. none propagates fuel exhaustion. -/
def mapMJoin (f : String → Option (List (List String))) : List String → Option (List (List String))
  | [] => some []
  | x :: xs =>
    match f x, mapMJoin f xs with
    | some r, some rs => some (r ++ rs)
    | _, _ => none

/-- _find_paths_recursive of SearchPath.py. The accumulated path is built
by prepending the current node (so the target sits at the end of every
accumulated list). The cycle guard emits the accumulated path unchanged
when the current node already occurs in it. A sole predecessor typed AND
is spliced in and each of its own predecessors is explored with the
gate-extended accumulator. The fuel argument bounds recursion depth;
none signals exhaustion and never occurs at the fuel used below. -/
def find_paths_recursive (g : Graph) : Nat → String → List String → Option (List (List String))
  | 0, _, _ => none
  | Nat.succ fuel, current, path =>
    if current ∈ path then some [path]
    else
      let newPath := current :: path
      match preds g current with
      | [] => some [newPath]
      | [a] =>
        if typeOf g a = some "AND" then
          let pathWithAnd := a :: newPath
          match preds g a with
          | [] => some [pathWithAnd]
          | andInputs => mapMJoin (fun i => find_paths_recursive g fuel i pathWithAnd) andInputs
        else
          mapMJoin (fun p => find_paths_recursive g fuel p newPath) [a]
      | ps => mapMJoin (fun p => find_paths_recursive g fuel p newPath) ps

/-- The ids the recursion can ever visit: the requested target plus the
sources of all edges kept by the predecessor map. -/
def allIds (g : Graph) (t : String) : Finset String :=
  insert t
    ((g.edges.filter (fun e => decide (e.source ≠ "") && decide (e.target ≠ ""))).map
      (fun e => e.source)).toFinset

/-- find_all_paths_to_target of SearchPath.py: empty result for an unknown
target id, otherwise the recursive search started at the target with an
empty accumulator, every resulting list reversed. The fuel passed is one
more than the number of ids the recursion can visit, which is proved
sufficient below, so the none branch is unreachable. -/
def find_all_paths_to_target (g : Graph) (target : String) : List (List String) :=
  if (nodesInfo g target).isSome then
    match find_paths_recursive g ((allIds g target).card + 1) target [] with
    | some backward_paths => backward_paths.map List.reverse
    | none => []
  else []

/-! Trees of node ids, as built by _build_forest_from_paths: each tree
node is a dict with an id and a children list. The children list is its
own inductive so that all traversals are mutual structural recursions. -/

mutual
inductive PTree where
  | node (id : String) (children : PForest)
deriving DecidableEq
inductive PForest where
  | nil
  | cons (head : PTree) (tail : PForest)
deriving DecidableEq
end

def rootId : PTree → String
  | .node i _ => i

def PForest.append1 : PForest → PTree → PForest
  | .nil, x => .cons x .nil
  | .cons h t, x => .cons h (t.append1 x)

def PForest.ofList : List PTree → PForest
  | [] => .nil
  | t :: ts => .cons t (PForest.ofList ts)

def PForest.toList : PForest → List PTree
  | .nil => []
  | .cons h t => h :: t.toList

def PForest.isNil : PForest → Bool
  | .nil => true
  | .cons _ _ => false

def PForest.length : PForest → Nat
  | .nil => 0
  | .cons _ t => t.length + 1

mutual
def PTree.size : PTree → Nat
  | .node _ cs => 1 + cs.size
def PForest.size : PForest → Nat
  | .nil => 0
  | .cons h t => h.size + t.size
end

/-- Whether some tree in the forest has the given root id (the membership
test of the children scan in _build_forest_from_paths). -/
def anyRoot (n : String) : PForest → Bool
  | .nil => false
  | .cons c cs => decide (rootId c = n) || anyRoot n cs

/-- Apply f to the first child with the given root id, keeping its
position: the Python code mutates the found child in place. -/
def replaceFirstChild (f : PTree → PTree) (n : String) : PForest → PForest
  | .nil => .nil
  | .cons c cs => if rootId c = n then .cons (f c) cs else .cons c (replaceFirstChild f n cs)

/-- The walk of one forward path below an existing tree position in
_build_forest_from_paths: reuse the first child with a matching id,
otherwise append a fresh child, then continue with the rest of
the path. -/
def merge_into : List String → PTree → PTree
  | [], t => t
  | n :: ns, .node i cs =>
      if anyRoot n cs then .node i (replaceFirstChild (merge_into ns) n cs)
      else .node i (cs.append1 (merge_into ns (.node n .nil)))

/-- Apply f to the first root with the given id in the top-level forest,
keeping list order (the root_map lookup mutates the stored root). -/
def replaceFirstRoot (f : PTree → PTree) (n : String) : List PTree → List PTree
  | [] => []
  | t :: ts => if rootId t = n then f t :: ts else t :: replaceFirstRoot f n ts

/-- One iteration of the path loop of _build_forest_from_paths: empty
paths are skipped; a path starting at a known root merges into that root,
otherwise a new root is appended to the forest. -/
def insertPathIntoForest (forest : List PTree) (path : List String) : List PTree :=
  match path with
  | [] => forest
  | s :: rest =>
      if forest.any (fun t => rootId t = s) then replaceFirstRoot (merge_into rest) s forest
      else forest ++ [merge_into rest (.node s .nil)]

/-- _build_forest_from_paths of SearchPath.py. -/
def build_forest_from_paths (paths : List (List String)) : List PTree :=
  paths.foldl insertPathIntoForest []

/-- The AND test used by the tree routines of SearchPath.py:
nodes_info.get(id, dict()).get(Type) equals the string AND. -/
def isAndId (g : Graph) (i : String) : Bool :=
  decide (typeOf g i = some "AND")

/-! _split_tree_at_or_nodes of SearchPath.py. -/

mutual
/-- _split_tree_at_or_nodes: a childless node stays as is; an AND node
re-attaches the splits of all children under one copy of itself; any
other node wraps each split of each child as an independent tree rooted
at a copy of itself. -/
def split_tree_at_or_nodes (g : Graph) : PTree → List PTree
  | .node i cs =>
      if cs.isNil then [.node i cs]
      else if isAndId g i then [.node i (PForest.ofList (splitChildren g cs))]
      else (splitChildren g cs).map (fun st => .node i (.cons st .nil))
/-- The loop collecting the recursive splits of every child, extended in
child order. -/
def splitChildren (g : Graph) : PForest → List PTree
  | .nil => []
  | .cons c cs => split_tree_at_or_nodes g c ++ splitChildren g cs
end

/-! The nested path structures of get_paths_as_lists: Python lists whose
elements are node id strings or further nested lists. -/

mutual
inductive PathL where
  | str (s : String)
  | list (items : PathLL)
deriving DecidableEq
inductive PathLL where
  | nil
  | cons (head : PathL) (tail : PathLL)
deriving DecidableEq
end

def PathLL.append1 : PathLL → PathL → PathLL
  | .nil, x => .cons x .nil
  | .cons h t, x => .cons h (t.append1 x)

def PathLL.ofList : List PathL → PathLL
  | [] => .nil
  | x :: xs => .cons x (PathLL.ofList xs)

def PathLL.head? : PathLL → Option PathL
  | .nil => none
  | .cons h _ => some h

/-- Whether every element of the list is itself a list: the Python test
all(isinstance(x, list) for x in path), true on the empty list. -/
def PathLL.allLists : PathLL → Bool
  | .nil => true
  | .cons (.str _) _ => false
  | .cons (.list _) t => t.allLists

mutual
/-- _convert_tree_to_list of SearchPath.py: a leaf becomes the singleton
of its id; an AND node becomes the two-element list of its id and the
list of converted child lists; any other node prepends its id to the
first converted child list. -/
def convert_tree_to_list (g : Graph) : PTree → PathLL
  | .node i .nil => .cons (.str i) .nil
  | .node i (.cons c cs) =>
      let child_lists := convertChildren g (.cons c cs)
      if isAndId g i then
        .cons (.str i) (.cons (.list (PathLL.ofList (child_lists.map PathL.list))) .nil)
      else
        match child_lists with
        | [] => .cons (.str i) .nil
        | c0 :: _ => .cons (.str i) c0
/-- The list comprehension converting every child subtree. -/
def convertChildren (g : Graph) : PForest → List PathLL
  | .nil => []
  | .cons c cs => convert_tree_to_list g c :: convertChildren g cs
end

mutual
/-- reverse_nested_list of get_paths_as_lists: a non-list value is kept;
a list is reversed element-wise with every element reversed recursively. -/
def reverse_nested_list : PathL → PathL
  | .str s => .str s
  | .list l => .list (revItems l)
/-- The comprehension over reversed(lst): the reversed head goes to the
end of the recursively reversed tail. -/
def revItems : PathLL → PathLL
  | .nil => .nil
  | .cons h t => (revItems t).append1 (reverse_nested_list h)
end

/-- get_paths_as_lists of SearchPath.py: find all linear paths, merge
them into a forest, split at OR nodes, convert every final tree to a
nested list and reverse it recursively. -/
def get_paths_as_lists (g : Graph) (target_id : String) : List PathL :=
  let all_linear_paths := find_all_paths_to_target g target_id
  if all_linear_paths.isEmpty then []
  else
    let merged_forest := build_forest_from_paths all_linear_paths
    let final_trees := merged_forest.foldl (fun acc t => acc ++ split_tree_at_or_nodes g t) []
    final_trees.map (fun tr => reverse_nested_list (.list (convert_tree_to_list g tr)))

/-! CalculateScore.py -/

/-- Python dict insertion: overwrite the value of an existing key in
place, otherwise append the new binding at the end. -/
def pyInsert {α β : Type} [DecidableEq α] (l : List (α × β)) (k : α) (v : β) : List (α × β) :=
  if l.any (fun kv => kv.1 = k) then l.map (fun kv => if kv.1 = k then (k, v) else kv)
  else l ++ [(k, v)]

/-- Python dict lookup on the association-list model: the first binding of
the key (keys are unique, see pyInsert). -/
def pyGet {α β : Type} [DecidableEq α] (l : List (α × β)) (k : α) : Option β :=
  (l.find? (fun kv => kv.1 = k)).map (fun kv => kv.2)

/-- load_graph_info of CalculateScore.py: the node dict keyed on ID and
the edge dict keyed on the ordered (source, target) pair, built by dict
comprehensions, later records overwriting earlier ones. -/
def load_graph_info (g : Graph) :
    List (String × GNode) × List ((String × String) × GEdge) :=
  (g.nodes.foldl (fun d n => pyInsert d n.ID n) [],
   g.edges.foldl (fun d e => pyInsert d (e.source, e.target) e) [])

/-- Character-list test: p is an initial segment of s. -/
def hasPre : List Char → List Char → Bool
  | [], _ => true
  | _ :: _, [] => false
  | a :: as, b :: bs => decide (a = b) && hasPre as bs

/-- Character-list test: n occurs contiguously inside s (the Python
substring operator in). -/
def hasSub (n : List Char) : List Char → Bool
  | [] => n.isEmpty
  | c :: t => hasPre n (c :: t) || hasSub n t

/-- The Python str.startswith test on strings. -/
def startsWithStr (s p : String) : Bool :=
  hasPre p.data s.data

/-! get_first_nodes of CalculateScore.py. -/

mutual
/-- get_first_nodes: the first nodes of a structure, used to connect a
predecessor to every branch head. A bare id is its own first node; a list
of lists collects the firsts of every branch; any other list answers from
its first element only (the Python loop returns on its first iteration). -/
def get_first_nodes : PathL → List String
  | .str s => [s]
  | .list items => if items.allLists then firstsBranches items else firstsLin items
/-- The loop extending the firsts of every branch of a list of lists. -/
def firstsBranches : PathLL → List String
  | .nil => []
  | .cons b t => get_first_nodes b ++ firstsBranches t
/-- The early-returning loop of the mixed-list case: only the first
element is inspected. -/
def firstsLin : PathLL → List String
  | .nil => []
  | .cons (.str s) _ => [s]
  | .cons (.list l) _ => get_first_nodes (.list l)
end

/-! The return value of extract_hops (the end nodes of a structure),
computed separately from the hop accumulation: the Python function
returns either a bare id or a flat list of ids, modeled uniformly as a
list of ids. -/

mutual
/-- The ends of a structure as returned by extract_hops: a bare id is its
own end; a list of lists flattens the ends of its branches; any other
list answers from its last element (a nested last list recursively, a
bare last id directly). -/
def extract_ends : PathL → List String
  | .str s => [s]
  | .list items => if items.allLists then endsBranches items else endsLin items
/-- The flattening loop over branch ends of a list of lists. -/
def endsBranches : PathLL → List String
  | .nil => []
  | .cons b t => extract_ends b ++ endsBranches t
/-- Walk to the last element of a mixed list and take its ends. -/
def endsLin : PathLL → List String
  | .nil => []
  | .cons (.str s) .nil => [s]
  | .cons (.list l) .nil => extract_ends (.list l)
  | .cons _ (.cons y t) => endsLin (.cons y t)
end

/-- The Python inequality prev != node for a stored previous element
against a bare id: unequal whenever prev is a list, otherwise string
inequality. -/
def neqStr : PathL → String → Bool
  | .str p, s => decide (p ≠ s)
  | .list _, _ => true

mutual
/-- extract_hops of CalculateScore.py, restricted to its accumulated hop
list (its return value is modeled by extract_ends). Hops are pairs of
structure elements; the Python code can append a pair whose first
component is a nested list when two list elements are adjacent, so hop
components are PathL values. -/
def extract_hops : PathL → List (PathL × PathL)
  | .str _ => []
  | .list items => if items.allLists then hopsBranches items else hopsLin none items
/-- The loop over the branches of a list of lists, accumulating the hops
of every branch in order. -/
def hopsBranches : PathLL → List (PathL × PathL)
  | .nil => []
  | .cons b t => extract_hops b ++ hopsBranches t
/-- The while loop of the mixed-list case. A bare id emits one hop from
the previous element unless equal to it. A nested list emits hops from
the previous element to each of its first nodes, then its internal hops,
then hops from each of its ends to the following element (to each first
node when that element is itself a list); the previous element for the
next iteration is the following element itself. -/
def hopsLin : Option PathL → PathLL → List (PathL × PathL)
  | _, .nil => []
  | prev, .cons (.str s) rest =>
      (match prev with
       | some p => if neqStr p s then [(p, PathL.str s)] else []
       | none => []) ++ hopsLin (some (.str s)) rest
  | prev, .cons (.list l) rest =>
      let h1 := match prev with
                | some p => (get_first_nodes (.list l)).map (fun b => (p, PathL.str b))
                | none => []
      let hB := extract_hops (.list l)
      let h2 := match rest.head? with
                | some (.list nl) =>
                    (extract_ends (.list l)).flatMap
                      (fun e => (get_first_nodes (.list nl)).map
                        (fun b => (PathL.str e, PathL.str b)))
                | some (.str s2) => (extract_ends (.list l)).map
                    (fun e => (PathL.str e, PathL.str s2))
                | none => []
      h1 ++ hB ++ h2 ++ hopsLin rest.head? rest
end

/-- An edge dict lookup for one extracted hop: defined only when both hop
components are bare ids (a nested-list component has no dict key). -/
def hopEdge (edge_dict : List ((String × String) × GEdge)) : PathL × PathL → Option GEdge
  | (.str a, .str b) => pyGet edge_dict (a, b)
  | _ => none

/-- Round half to even at the third decimal place, the behavior of the
Python built-in round(x, 3) used on the stealth mean. -/
def round3 (q : ℚ) : ℚ :=
  let s : ℚ := q * 1000
  let f : ℤ := ⌊s⌋
  let r : ℚ := s - f
  let n : ℤ :=
    if r < 1 / 2 then f
    else if 1 / 2 < r then f + 1
    else if f % 2 = 0 then f else f + 1
  (n : ℚ) / 1000

/-- The cost contribution test of the scoring loops: the edge of the hop
exists in the edge dict and its cost is not null. -/
def hopCost (edge_dict : List ((String × String) × GEdge)) (h : PathL × PathL) : Option ℚ :=
  (hopEdge edge_dict h).bind (fun e => e.cost)

/-- The stealth contribution test of the scoring loops: the edge of the
hop exists in the edge dict and its stealth is not null. -/
def hopStealth (edge_dict : List ((String × String) × GEdge)) (h : PathL × PathL) : Option ℚ :=
  (hopEdge edge_dict h).bind (fun e => e.stealth)

/-- calc_path_cost of CalculateScore.py: starting from the number 0, add
the cost of every extracted hop whose edge exists and has a non-null
cost. The node dict parameter is accepted and unused, as in Python. -/
def calc_path_cost (path : PathL) (node_dict : List (String × GNode))
    (edge_dict : List ((String × String) × GEdge)) : ℚ :=
  (extract_hops path).foldl
    (fun total h =>
      match hopCost edge_dict h with
      | some c => total + c
      | none => total) 0

/-- calc_path_stealth of CalculateScore.py: collect the stealth of every
extracted hop whose edge exists and has a non-null stealth; None when the
collection is empty, otherwise its mean rounded at the third decimal. -/
def calc_path_stealth (path : PathL) (node_dict : List (String × GNode))
    (edge_dict : List ((String × String) × GEdge)) : Option ℚ :=
  let stealth_values :=
    (extract_hops path).foldl
      (fun acc h =>
        match hopStealth edge_dict h with
        | some v => acc ++ [v]
        | none => acc) []
  if stealth_values.isEmpty then none
  else some (round3 (stealth_values.sum / stealth_values.length))

/-! calc_path_length of CalculateScore.py. -/

mutual
/-- The inner _count_nodes: a bare id counts 1; a list of lists counts
the maximum branch count (0 when empty); any other list sums the counts
of its elements. -/
def count_nodes : PathL → Nat
  | .str _ => 1
  | .list items => if items.allLists then maxNodes items else sumNodes items
/-- max over branch counts with default 0. -/
def maxNodes : PathLL → Nat
  | .nil => 0
  | .cons b t => max (count_nodes b) (maxNodes t)
/-- Sum of element counts of a mixed list. -/
def sumNodes : PathLL → Nat
  | .nil => 0
  | .cons b t => count_nodes b + sumNodes t
end

mutual
/-- The inner _count_logic_nodes: bare ids with the LOGIC_ id prefix
count 1, everything else 0, summed over all nesting. -/
def count_logic_nodes : PathL → Nat
  | .str s => if startsWithStr s "LOGIC_" then 1 else 0
  | .list items => sumLogic items
/-- Sum of logic-node counts over list elements. -/
def sumLogic : PathLL → Nat
  | .nil => 0
  | .cons b t => count_logic_nodes b + sumLogic t
end

/-- calc_path_length of CalculateScore.py: total node count minus logic
node count minus one. The result is an integer (it is negative one on an
empty structure). -/
def calc_path_length (path : PathL) (node_dict : List (String × GNode))
    (edge_dict : List ((String × String) × GEdge)) : ℤ :=
  (count_nodes path : ℤ) - (count_logic_nodes path : ℤ) - 1

mutual
/-- The traversal of extract_all_nodes_and_centrality: every bare id in
the structure paired with its centrality from the node dict, in
traversal order. -/
def nodes_and_centrality (node_dict : List (String × GNode)) : PathL → List (String × Option ℚ)
  | .str s => [(s, (pyGet node_dict s).bind (fun n => n.centrality))]
  | .list items => nodesCentLL node_dict items
/-- The traversal loop over list elements. -/
def nodesCentLL (node_dict : List (String × GNode)) : PathLL → List (String × Option ℚ)
  | .nil => []
  | .cons b t => nodes_and_centrality node_dict b ++ nodesCentLL node_dict t
end

/-- calc_path_centrality of CalculateScore.py: the maximum defined
centrality over all nodes of the structure, None when every node lacks
one. -/
def calc_path_centrality (path : PathL) (node_dict : List (String × GNode))
    (edge_dict : List ((String × String) × GEdge)) : Option ℚ :=
  let centrality_values := (nodes_and_centrality node_dict path).filterMap (fun p => p.2)
  match centrality_values with
  | [] => none
  | v :: vs => some (vs.foldl max v)

/-- analyze_path of CalculateScore.py, without the leading str(path)
component of the Python result tuple: total cost, average stealth, path
length and path criticality of one structure. -/
def analyze_path (path : PathL) (node_dict : List (String × GNode))
    (edge_dict : List ((String × String) × GEdge)) : ℚ × Option ℚ × ℤ × Option ℚ :=
  (calc_path_cost path node_dict edge_dict,
   calc_path_stealth path node_dict edge_dict,
   calc_path_length path node_dict edge_dict,
   calc_path_centrality path node_dict edge_dict)

/-! extract_dot_nodes.py. The lexical side (regular expressions over raw
DOT text) is out of scope; a DotLine is a line already matched by one of
the node patterns (with its captured id and label) or by the edge
pattern (with its captured endpoint ids). Everything after capture is
modeled: type classification, edge attribute inference from declaration
order, duplicate handling and the centrality assignment. -/

inductive DotLine where
  | nodeLine (id label : String)
  | edgeLine (src tgt : String)
deriving DecidableEq

/-- A node declaration as accumulated in the nodes dict of parse_dot,
before Target, Source and centrality are filled in. -/
structure PNodeDecl where
  Label : String
  Ty : String
deriving DecidableEq

/-- A finished node record of the parse_dot output. -/
structure PNode where
  ID : String
  Label : String
  Ty : String
  Target : List String
  Source : List String
  centrality : ℚ
deriving DecidableEq

/-- The node type chosen by parse_dot from the id prefix and the label
content: CH_ ids are channels refined by the [Physical] and [System]
label markers, A_ ids are actions, T_ ids are triggers, LOGIC_ ids are
AND, OR or logic gates depending on the id content; a line matched by no
branch declares nothing. -/
def classify_node (id label : String) : Option String :=
  if hasPre "CH_".data id.data then
    some (if hasSub "[Physical]".data label.data then "physical_channel"
          else if hasSub "[System]".data label.data then "system_channel"
          else "channel")
  else if hasPre "A_".data id.data then some "action"
  else if hasPre "T_".data id.data then some "trigger"
  else if hasPre "LOGIC_".data id.data then
    some (if hasSub "AND".data id.data then "AND"
          else if hasSub "OR".data id.data then "OR"
          else "logic")
  else none

/-- The edge attribute inference of parse_dot, evaluated against the
nodes declared so far: an edge out of a LOGIC_ id is explicit with cost
and stealth 1; an edge into a LOGIC_ id is explicit with null cost and
stealth; otherwise a physical_channel endpoint gives physical_implicit
5 and 3, a system_channel endpoint gives system_implicit 3 and 2, and
anything else explicit 1 and 1. Unknown endpoint types read as the empty
string. -/
def classify_edge (nodesD : List (String × PNodeDecl)) (src tgt : String) : GEdge :=
  if hasPre "LOGIC_".data src.data then
    { source := src, target := tgt, type := "explicit", cost := some 1, stealth := some 1 }
  else if hasPre "LOGIC_".data tgt.data then
    { source := src, target := tgt, type := "explicit", cost := none, stealth := none }
  else
    let src_type := ((pyGet nodesD src).map (fun n => n.Ty)).getD ""
    let tgt_type := ((pyGet nodesD tgt).map (fun n => n.Ty)).getD ""
    if src_type = "physical_channel" ∨ tgt_type = "physical_channel" then
      { source := src, target := tgt, type := "physical_implicit", cost := some 5, stealth := some 3 }
    else if src_type = "system_channel" ∨ tgt_type = "system_channel" then
      { source := src, target := tgt, type := "system_implicit", cost := some 3, stealth := some 2 }
    else
      { source := src, target := tgt, type := "explicit", cost := some 1, stealth := some 1 }

/-- One iteration of the line loop of parse_dot: an edge line appends an
edge record classified against the nodes seen so far; a node line stores
its declaration in the nodes dict (overwriting an earlier declaration of
the same id) when some branch classifies it. -/
def parseDotStep (st : List (String × PNodeDecl) × List GEdge) (l : DotLine) :
    List (String × PNodeDecl) × List GEdge :=
  match l with
  | .edgeLine src tgt => (st.1, st.2 ++ [classify_edge st.1 src tgt])
  | .nodeLine id label =>
      match classify_node id label with
      | none => st
      | some ty => (pyInsert st.1 id { Label := label, Ty := ty }, st.2)

/-- parse_dot of extract_dot_nodes.py, after lexing. The centrality
argument stands for the betweenness-centrality map that networkx
computes over the subgraph of non-AND nodes (an external library call;
every theorem below holds for an arbitrary such map). The result lists
the finished node records in declaration order and the edge records in
edge-line order: Target and Source collect edge endpoints in edge order,
and centrality is the looked-up value (default 0) for every node that is
neither AND-typed nor channel-typed, and exactly 0 for the others. -/
def parse_dot (lines : List DotLine) (centrality : String → Option ℚ) :
    List PNode × List GEdge :=
  let st := lines.foldl parseDotStep ([], [])
  let edges := st.2
  (st.1.map (fun kv =>
    { ID := kv.1
      Label := kv.2.Label
      Ty := kv.2.Ty
      Target := (edges.filter (fun e => decide (e.source = kv.1))).map (fun e => e.target)
      Source := (edges.filter (fun e => decide (e.target = kv.1))).map (fun e => e.source)
      centrality :=
        if kv.2.Ty ≠ "AND" ∧ kv.2.Ty ≠ "physical_channel" ∧
           kv.2.Ty ≠ "system_channel" ∧ kv.2.Ty ≠ "channel" then
          (centrality kv.1).getD 0
        else 0 }),
   edges)

/-! Auxiliary predicates and concrete instances used in the theorems. -/

mutual
/-- Trees without an OR branch point: every node that is not typed AND
has at most one child (AND nodes may have arbitrarily many). -/
def noOrT (g : Graph) : PTree → Bool
  | .node i cs => (isAndId g i || decide (cs.length ≤ 1)) && noOrF g cs
/-- noOrT for every tree of a forest. -/
def noOrF (g : Graph) : PForest → Bool
  | .nil => true
  | .cons c cs => noOrT g c && noOrF g cs
end

/-- The linear-chain scenario of the spec: edges A to B (cost 5,
stealth 3) and B to T (cost 3, stealth 2), target T. -/
def gC1 : Graph :=
  { nodes := [{ ID := "A", Ty := some "trigger", centrality := some 0 },
              { ID := "B", Ty := some "channel", centrality := some 0 },
              { ID := "T", Ty := some "action", centrality := some 0 }],
    edges := [{ source := "A", target := "B", type := "physical_implicit",
                cost := some 5, stealth := some 3 },
              { source := "B", target := "T", type := "system_implicit",
                cost := some 3, stealth := some 2 }] }

/-- The single path structure produced by get_paths_as_lists on gC1. -/
def pC1 : PathL := .list (.cons (.str "A") (.cons (.str "B") (.cons (.str "T") .nil)))

/-- A two-node graph with the single edge T_A to A_T. -/
def gC2 : Graph :=
  { nodes := [{ ID := "T_A", Ty := some "trigger", centrality := some 0 },
              { ID := "A_T", Ty := some "action", centrality := some 0 }],
    edges := [{ source := "T_A", target := "A_T", type := "explicit",
                cost := some 1, stealth := some 1 }] }

/-- The AND scenario of the spec: the sole predecessor of target A_T is
the AND gate LOGIC_AND_G, fed by the one-hop branch T_P1 and the two-hop
branch T_P2 to T_Q. -/
def gC3 : Graph :=
  { nodes := [{ ID := "T_P1", Ty := some "trigger", centrality := some 0 },
              { ID := "T_P2", Ty := some "trigger", centrality := some 0 },
              { ID := "T_Q", Ty := some "trigger", centrality := some 0 },
              { ID := "LOGIC_AND_G", Ty := some "AND", centrality := some 0 },
              { ID := "A_T", Ty := some "action", centrality := some 0 }],
    edges := [{ source := "T_P1", target := "LOGIC_AND_G", type := "explicit",
                cost := none, stealth := none },
              { source := "T_P2", target := "T_Q", type := "explicit",
                cost := some 1, stealth := some 1 },
              { source := "T_Q", target := "LOGIC_AND_G", type := "explicit",
                cost := none, stealth := none },
              { source := "LOGIC_AND_G", target := "A_T", type := "explicit",
                cost := some 1, stealth := some 1 }] }

/-- The single path structure produced by get_paths_as_lists on gC3:
the branch group of the reversed branches, then the gate, then the
target. -/
def pC3 : PathL :=
  .list (.cons (.list (.cons (.list (.cons (.str "T_P2") (.cons (.str "T_Q") .nil)))
                      (.cons (.list (.cons (.str "T_P1") .nil)) .nil)))
         (.cons (.str "LOGIC_AND_G") (.cons (.str "A_T") .nil)))

/-- The example structure of the calc_path_length docstring, which the
docstring says yields 5. -/
def pDoc : PathL :=
  .list (.cons (.list (.cons (.list (.cons (.str "A") (.cons (.str "B") .nil)))
                      (.cons (.list (.cons (.str "C") .nil)) .nil)))
         (.cons (.str "D") (.cons (.str "E") (.cons (.str "F") .nil))))

/-- A four-node linear chain whose three edges carry stealth 1, 1 and 2,
so that the stealth mean 4 thirds is not representable at three
decimals. -/
def gC4 : Graph :=
  { nodes := [{ ID := "A", Ty := some "trigger", centrality := some 0 },
              { ID := "B", Ty := some "channel", centrality := some 0 },
              { ID := "C", Ty := some "channel", centrality := some 0 },
              { ID := "D", Ty := some "action", centrality := some 0 }],
    edges := [{ source := "A", target := "B", type := "explicit",
                cost := some 1, stealth := some 1 },
              { source := "B", target := "C", type := "explicit",
                cost := some 1, stealth := some 1 },
              { source := "C", target := "D", type := "system_implicit",
                cost := some 3, stealth := some 2 }] }

/-- The linear structure A, B, C, D scored against gC4. -/
def pC4 : PathL :=
  .list (.cons (.str "A") (.cons (.str "B") (.cons (.str "C") (.cons (.str "D") .nil))))

/-- Two identical edge declarations, the duplicate-collapse test input. -/
def dupLines : List DotLine := [.edgeLine "A_x" "A_y", .edgeLine "A_x" "A_y"]

/-- A tree with one AND group and no OR branch point, relative to gC3:
the gate node has two children, every other node at most one. -/
def tC6 : PTree :=
  .node "A_T" (.cons (.node "LOGIC_AND_G"
    (.cons (.node "T_P1" .nil) (.cons (.node "T_Q" (.cons (.node "T_P2" .nil) .nil)) .nil)))
    .nil)

/-- A cyclic graph: A and B feed each other and B also reaches T. -/
def gCyc : Graph :=
  { nodes := [{ ID := "A", Ty := some "trigger", centrality := some 0 },
              { ID := "B", Ty := some "trigger", centrality := some 0 },
              { ID := "T", Ty := some "action", centrality := some 0 }],
    edges := [{ source := "A", target := "B", type := "explicit",
                cost := some 1, stealth := some 1 },
              { source := "B", target := "A", type := "explicit",
                cost := some 1, stealth := some 1 },
              { source := "B", target := "T", type := "explicit",
                cost := some 1, stealth := some 1 }] }

/-- The node type vocabulary of parse_dot: the eight strings
classify_node can produce. -/
def TyOk (s : String) : Prop :=
  s = "physical_channel" ∨ s = "system_channel" ∨ s = "channel" ∨ s = "action" ∨
  s = "trigger" ∨ s = "AND" ∨ s = "OR" ∨ s = "logic"

/-- Node declarations exercising every classification branch of
parse_dot. -/
def linesC9 : List DotLine :=
  [.nodeLine "T_hall_motion" "hall motion",
   .nodeLine "CH_temp" "temperature [Physical]",
   .nodeLine "LOGIC_AND_1" "AND",
   .nodeLine "A_open_door" "open door",
   .edgeLine "T_hall_motion" "LOGIC_AND_1",
   .edgeLine "LOGIC_AND_1" "A_open_door"]

/-! Helper lemmas. -/

theorem foldl_opt_append {α : Type} (f : α → Option ℚ) (l : List α) :
    ∀ acc : List ℚ,
      l.foldl (fun a x => match f x with | some v => a ++ [v] | none => a) acc
        = acc ++ l.filterMap f := by
  induction l with
  | nil => intro acc; simp
  | cons x xs ih => intro acc; cases hfx : f x <;> simp [hfx, ih, List.filterMap_cons]

theorem foldl_opt_add {α : Type} (f : α → Option ℚ) (l : List α) :
    ∀ acc : ℚ,
      l.foldl (fun a x => match f x with | some v => a + v | none => a) acc
        = acc + (l.filterMap f).sum := by
  induction l with
  | nil => intro acc; simp
  | cons x xs ih =>
    intro acc
    cases hfx : f x <;> simp [hfx, ih, List.filterMap_cons, add_assoc]

theorem pyInsert_keys_nodup {α β : Type} [DecidableEq α] {l : List (α × β)} (k : α) (v : β)
    (h : (l.map Prod.fst).Nodup) : ((pyInsert l k v).map Prod.fst).Nodup := by
  unfold pyInsert
  split
  · have heq : (l.map (fun kv => if kv.1 = k then (k, v) else kv)).map Prod.fst
        = l.map Prod.fst := by
      rw [List.map_map]
      apply List.map_congr_left
      intro kv _
      by_cases hk : kv.1 = k <;> simp [hk]
    rw [heq]; exact h
  · rename_i hany
    have hk : k ∉ l.map Prod.fst := by
      intro hmem
      apply hany
      rw [List.any_eq_true]
      obtain ⟨kv, hkv, hfst⟩ := List.mem_map.mp hmem
      exact ⟨kv, hkv, by simp [hfst]⟩
    simp [List.nodup_append, h, hk]

/-- C10: for every path structure in which no extracted hop has a
defined cost (in particular with no hops at all), calc_path_cost is the
number 0; its return type is a number, never an absent value, unlike the
stealth aggregate. -/
theorem C10_cost_zero_when_no_defined_cost (path : PathL)
    (node_dict : List (String × GNode)) (edge_dict : List ((String × String) × GEdge))
    (h : (extract_hops path).filterMap (hopCost edge_dict) = []) :
    calc_path_cost path node_dict edge_dict = 0 := by
  unfold calc_path_cost
  rw [foldl_opt_add (hopCost edge_dict)]
  simp [h]

theorem C10_witness :
    (extract_hops pC1).filterMap (hopCost []) = [] ∧ calc_path_cost pC1 [] [] = 0 :=
  ⟨by decide, C10_cost_zero_when_no_defined_cost pC1 [] [] (by decide)⟩

/-- C4 (amended): calc_path_stealth is the arithmetic mean of the
defined stealth values of the extracted hops, rounded half-to-even at
the third decimal place, and None exactly when no extracted hop has a
defined stealth value. -/
theorem C4_stealth_rounded_mean (path : PathL) (node_dict : List (String × GNode))
    (edge_dict : List ((String × String) × GEdge)) :
    calc_path_stealth path node_dict edge_dict =
      (if ((extract_hops path).filterMap (hopStealth edge_dict)).isEmpty then none
       else some (round3 (((extract_hops path).filterMap (hopStealth edge_dict)).sum /
                          ((extract_hops path).filterMap (hopStealth edge_dict)).length))) := by
  unfold calc_path_stealth
  rw [foldl_opt_append (hopStealth edge_dict)]
  simp

/-- C4 (counterexample): on the chain A B C D with stealth values 1, 1
and 2 the defined stealth values have arithmetic mean 4 thirds, but
calc_path_stealth returns 1333 over 1000 (the rounding of the Python
built-in round at three decimals), which is not the arithmetic mean. -/
theorem C4_counterexample :
    (extract_hops pC4).filterMap (hopStealth (load_graph_info gC4).2) = [1, 1, 2] ∧
    ((1 : ℚ) + 1 + 2) / 3 = 4 / 3 ∧
    calc_path_stealth pC4 (load_graph_info gC4).1 (load_graph_info gC4).2
      = some (1333 / 1000) ∧
    (1333 / 1000 : ℚ) ≠ 4 / 3 := by
  have h : extract_hops pC4
      = [(.str "A", .str "B"), (.str "B", .str "C"), (.str "C", .str "D")] := by decide
  have h1 : hopStealth (load_graph_info gC4).2 (.str "A", .str "B") = some 1 := by decide
  have h2 : hopStealth (load_graph_info gC4).2 (.str "B", .str "C") = some 1 := by decide
  have h3 : hopStealth (load_graph_info gC4).2 (.str "C", .str "D") = some 2 := by decide
  refine ⟨?_, by norm_num, ?_, by norm_num⟩
  · rw [h]; simp [List.filterMap_cons, h1, h2, h3]
  · unfold calc_path_stealth
    rw [h]
    simp only [List.foldl_cons, List.foldl_nil, h1, h2, h3]
    norm_num [round3]

/-- C5 (counterexample): parse_dot keeps both records of two identical
edge declarations, so its produced edge list does contain two records
with the same ordered source and target pair. -/
theorem C5_counterexample :
    (parse_dot dupLines (fun _ => none)).2 =
      [{ source := "A_x", target := "A_y", type := "explicit",
         cost := some 1, stealth := some 1 },
       { source := "A_x", target := "A_y", type := "explicit",
         cost := some 1, stealth := some 1 }] ∧
    ¬ List.Pairwise (fun a b => ¬ (a.source = b.source ∧ a.target = b.target))
        (parse_dot dupLines (fun _ => none)).2 := by decide

/-- C5 (amended): the collapse to one record per ordered pair happens in
the edge dict of load_graph_info, whose key list never repeats an
ordered (source, target) pair, the last record winning; the edge list
produced by parse_dot itself may retain duplicates. -/
theorem C5_edge_dict_keys_unique (g : Graph) :
    (((load_graph_info g).2).map Prod.fst).Nodup := by
  have hgen : ∀ (es : List GEdge) (acc : List ((String × String) × GEdge)),
      (acc.map Prod.fst).Nodup →
      ((es.foldl (fun d e => pyInsert d (e.source, e.target) e) acc).map Prod.fst).Nodup := by
    intro es
    induction es with
    | nil => intro acc h; simpa using h
    | cons e es ih =>
      intro acc h
      simpa using ih (pyInsert acc (e.source, e.target) e) (pyInsert_keys_nodup _ _ h)
  exact hgen g.edges [] (by simp)

/-- C1: on the linear chain A to B to T (costs 5 and 3, stealth 3 and
2), get_paths_as_lists for target T returns exactly one path structure;
its extracted hops are (A, B) and (B, T), its total cost 8, its average
stealth 2.5 and its path length 2. -/
theorem C1_linear_chain_scores :
    get_paths_as_lists gC1 "T" = [pC1] ∧
    extract_hops pC1 = [(.str "A", .str "B"), (.str "B", .str "T")] ∧
    calc_path_cost pC1 (load_graph_info gC1).1 (load_graph_info gC1).2 = 8 ∧
    calc_path_stealth pC1 (load_graph_info gC1).1 (load_graph_info gC1).2 = some (5 / 2) ∧
    calc_path_length pC1 (load_graph_info gC1).1 (load_graph_info gC1).2 = 2 := by
  have h : extract_hops pC1 = [(.str "A", .str "B"), (.str "B", .str "T")] := by decide
  have h1 : hopCost (load_graph_info gC1).2 (.str "A", .str "B") = some 5 := by decide
  have h2 : hopCost (load_graph_info gC1).2 (.str "B", .str "T") = some 3 := by decide
  have h3 : hopStealth (load_graph_info gC1).2 (.str "A", .str "B") = some 3 := by decide
  have h4 : hopStealth (load_graph_info gC1).2 (.str "B", .str "T") = some 2 := by decide
  refine ⟨by decide, h, ?_, ?_, by decide⟩
  · unfold calc_path_cost
    rw [h]
    simp only [List.foldl_cons, List.foldl_nil, h1, h2]
    norm_num
  · unfold calc_path_stealth
    rw [h]
    simp only [List.foldl_cons, List.foldl_nil, h3, h4]
    norm_num [round3]

/-- C3: the claim states that the path length of the AND scenario (gate
fed by a one-hop and a two-hop branch) is 3, which agrees with the
docstring of calc_path_length (whose stated example value is 5 on the
structure pDoc); the code returns 2 on the scenario structure and 4 on
its own docstring example, because the final minus one is applied on top
of the LOGIC-node subtraction. -/
theorem C3_length_divergence :
    get_paths_as_lists gC3 "A_T" = [pC3] ∧
    calc_path_length pC3 (load_graph_info gC3).1 (load_graph_info gC3).2 = 2 ∧
    calc_path_length pDoc [] [] = 4 := by decide

/-- C8: a target id carried by no node record yields an empty path list
from find_all_paths_to_target and an empty list from
get_paths_as_lists; both functions are total, so no exception can
arise. -/
theorem C8_unknown_target_empty (g : Graph) (t : String)
    (h : ∀ n ∈ g.nodes, n.ID ≠ t) :
    find_all_paths_to_target g t = [] ∧ get_paths_as_lists g t = [] := by
  have hni : nodesInfo g t = none := by
    unfold nodesInfo
    rw [List.find?_eq_none]
    intro n hn
    simpa using h n (List.mem_reverse.mp hn)
  have h1 : find_all_paths_to_target g t = [] := by
    unfold find_all_paths_to_target
    simp [hni]
  exact ⟨h1, by unfold get_paths_as_lists; simp [h1]⟩

theorem C8_witness :
    (∀ n ∈ gC1.nodes, n.ID ≠ "Z") ∧
    (find_all_paths_to_target gC1 "Z" = [] ∧ get_paths_as_lists gC1 "Z" = []) :=
  ⟨by decide, C8_unknown_target_empty gC1 "Z" (by decide)⟩

theorem mem_allIds_of_mem_preds {g : Graph} {t c x : String}
    (hx : x ∈ preds g c) : x ∈ allIds g t := by
  unfold preds at hx
  unfold allIds
  obtain ⟨e, he, rfl⟩ := List.mem_map.mp hx
  obtain ⟨hel, hp⟩ := List.mem_filter.mp he
  simp only [Bool.and_eq_true, decide_eq_true_eq] at hp
  apply Finset.mem_insert_of_mem
  rw [List.mem_toFinset, List.mem_map]
  refine ⟨e, ?_, rfl⟩
  rw [List.mem_filter]
  exact ⟨hel, by simp [hp.1.1, hp.1.2]⟩

theorem mapMJoin_isSome (f : String → Option (List (List String))) (l : List String)
    (h : ∀ x ∈ l, (f x).isSome) : (mapMJoin f l).isSome := by
  induction l with
  | nil => simp [mapMJoin]
  | cons x xs ih =>
    obtain ⟨r, hr⟩ := Option.isSome_iff_exists.mp (h x (by simp))
    obtain ⟨rs, hrs⟩ := Option.isSome_iff_exists.mp (ih (fun y hy => h y (by simp [hy])))
    simp [mapMJoin, hr, hrs]

theorem card_sdiff_cons_lt {S : Finset String} {current : String} (path : List String)
    (hc : current ∈ S) (hnp : current ∉ path) :
    (S \ (current :: path).toFinset).card < (S \ path.toFinset).card := by
  apply Finset.card_lt_card
  rw [Finset.ssubset_iff_of_subset
    (Finset.sdiff_subset_sdiff (Finset.Subset.refl S)
      (by rw [List.toFinset_cons]; exact Finset.subset_insert _ _))]
  refine ⟨current, ?_, ?_⟩
  · rw [Finset.mem_sdiff]
    exact ⟨hc, by simpa using hnp⟩
  · simp

/-- C7: _find_paths_recursive terminates on every finite graph, cyclic
ones included: when the fuel (modeling the available recursion depth)
exceeds the number of ids the search can visit that are not already in
the accumulated path, the search completes (the result is not the fuel
exhaustion marker). The cycle guard provides exactly this: a node
already in the accumulator is never recursed into, so every level of
recursion enlarges the accumulated path by a fresh node. -/
theorem C7_search_terminates (g : Graph) (t : String) :
    ∀ (fuel : Nat) (current : String) (path : List String),
      current ∈ allIds g t →
      (allIds g t \ path.toFinset).card < fuel →
      (find_paths_recursive g fuel current path).isSome := by
  intro fuel
  induction fuel with
  | zero => intro current path _ hcard; omega
  | succ fuel ih =>
    intro current path hcur hcard
    rw [find_paths_recursive]
    by_cases hmem : current ∈ path
    · simp [hmem]
    · simp only [hmem, if_false]
      have hlt : (allIds g t \ (current :: path).toFinset).card < fuel := by
        have := card_sdiff_cons_lt path hcur hmem
        omega
      have hltAnd : ∀ a : String,
          (allIds g t \ (a :: current :: path).toFinset).card < fuel := by
        intro a
        have hle : (allIds g t \ (a :: current :: path).toFinset).card ≤
            (allIds g t \ (current :: path).toFinset).card := by
          apply Finset.card_le_card
          apply Finset.sdiff_subset_sdiff (Finset.Subset.refl _)
          rw [List.toFinset_cons, List.toFinset_cons, List.toFinset_cons]
          exact Finset.subset_insert _ _
        omega
      cases hp : preds g current with
      | nil => simp
      | cons a rest =>
        cases rest with
        | nil =>
          by_cases hAnd : typeOf g a = some "AND"
          · simp only [hAnd, if_true]
            cases hpa : preds g a with
            | nil => simp
            | cons i irest =>
              apply mapMJoin_isSome
              intro x hxmem
              exact ih x (a :: current :: path)
                (mem_allIds_of_mem_preds (c := a) (by rw [hpa]; exact hxmem)) (hltAnd a)
          · simp only [hAnd, if_false]
            apply mapMJoin_isSome
            intro x hxmem
            have hx : x ∈ preds g current := by
              rw [hp]; exact hxmem
            exact ih x (current :: path) (mem_allIds_of_mem_preds hx) hlt
        | cons b rest2 =>
          apply mapMJoin_isSome
          intro x hxmem
          have hx : x ∈ preds g current := by
            rw [hp]; exact hxmem
          exact ih x (current :: path) (mem_allIds_of_mem_preds hx) hlt

theorem C7_witness :
    ("T" ∈ allIds gCyc "T" ∧ (allIds gCyc "T" \ ([] : List String).toFinset).card < 4) ∧
    (find_paths_recursive gCyc 4 "T" []).isSome :=
  ⟨⟨by decide, by decide⟩, C7_search_terminates gCyc "T" 4 "T" [] (by decide) (by decide)⟩

theorem mapMJoin_mem (f : String → Option (List (List String))) (l : List String) :
    ∀ res, mapMJoin f l = some res → ∀ e ∈ res, ∃ x ∈ l, ∃ r, f x = some r ∧ e ∈ r := by
  induction l with
  | nil =>
    intro res h e he
    simp only [mapMJoin] at h
    cases h
    simp at he
  | cons x xs ih =>
    intro res h e he
    simp only [mapMJoin] at h
    cases hfx : f x with
    | none => rw [hfx] at h; simp at h
    | some r =>
      rw [hfx] at h
      cases hrec : mapMJoin f xs with
      | none => rw [hrec] at h; simp at h
      | some rs =>
        rw [hrec] at h
        simp only [Option.some.injEq] at h
        subst h
        rcases List.mem_append.mp he with her | hers
        · exact ⟨x, by simp, r, hfx, her⟩
        · obtain ⟨y, hy, ry, hry, hery⟩ := ih rs hrec e hers
          exact ⟨y, by simp [hy], ry, hry, hery⟩

theorem anchor_shift {e l : List String} {c : String} {path : List String}
    (h : e = l ++ c :: path) :
    ∃ l2, e = l2 ++ (if path = [] then [c] else path) := by
  cases path with
  | nil => exact ⟨l, by simpa using h⟩
  | cons p ps => exact ⟨l ++ [c], by simpa [List.append_assoc] using h⟩

/-- Invariant of _find_paths_recursive: provided the call was made with
an empty accumulator or from a predecessor step (as every call of the
algorithm is), every emitted list extends the accumulator to the left
(so it keeps the original target as its final element), and its first
element either has no predecessor at all or has a predecessor occurring
in the emitted list itself (the truncated cycle). -/
theorem find_paths_recursive_sound (g : Graph) :
    ∀ (fuel : Nat) (c : String) (path : List String) (res : List (List String)),
      find_paths_recursive g fuel c path = some res →
      (path = [] ∨ ∃ hd tl, path = hd :: tl ∧ c ∈ preds g hd) →
      ∀ e ∈ res,
        (∃ l, e = l ++ (if path = [] then [c] else path)) ∧
        (∃ x, e.head? = some x ∧ (preds g x = [] ∨ ∃ y ∈ e, y ∈ preds g x)) := by
  intro fuel
  induction fuel with
  | zero => intro c path res h; cases h
  | succ fuel ih =>
    intro c path res h hpre e he
    rw [find_paths_recursive] at h
    by_cases hmem : c ∈ path
    · simp only [hmem, if_true, Option.some.injEq] at h
      subst h
      simp only [List.mem_singleton] at he
      subst he
      rcases hpre with hnil | ⟨hd, tl, hpath, hcp⟩
      · subst hnil; cases hmem
      · subst hpath
        refine ⟨⟨[], by simp⟩, hd, rfl, Or.inr ⟨c, hmem, hcp⟩⟩
    · simp only [hmem, if_false] at h
      cases hp : preds g c with
      | nil =>
        rw [hp] at h
        simp only [Option.some.injEq] at h
        subst h
        simp only [List.mem_singleton] at he
        subst he
        exact ⟨anchor_shift (l := []) rfl, c, rfl, Or.inl hp⟩
      | cons a rest =>
        rw [hp] at h
        cases rest with
        | nil =>
          by_cases hAnd : typeOf g a = some "AND"
          · simp only [hAnd, if_true] at h
            cases hpa : preds g a with
            | nil =>
              rw [hpa] at h
              simp only [Option.some.injEq] at h
              subst h
              simp only [List.mem_singleton] at he
              subst he
              refine ⟨anchor_shift (l := [a]) rfl, a, rfl, Or.inl hpa⟩
            | cons i irest =>
              rw [hpa] at h
              obtain ⟨x, hx, r, hr, her⟩ := mapMJoin_mem _ _ res h e he
              have hpre2 : (a :: c :: path = []) ∨
                  ∃ hd tl, a :: c :: path = hd :: tl ∧ x ∈ preds g hd :=
                Or.inr ⟨a, c :: path, rfl, by rw [hpa]; exact hx⟩
              obtain ⟨⟨l, hl⟩, hhead⟩ := ih x (a :: c :: path) r hr hpre2 e her
              simp only [if_neg (List.cons_ne_nil a (c :: path))] at hl
              refine ⟨anchor_shift (l := l ++ [a]) ?_, hhead⟩
              rw [hl]; simp
          · simp only [hAnd, if_false] at h
            obtain ⟨x, hx, r, hr, her⟩ := mapMJoin_mem _ _ res h e he
            simp only [List.mem_singleton] at hx
            subst hx
            have hpre2 : (c :: path = []) ∨
                ∃ hd tl, c :: path = hd :: tl ∧ x ∈ preds g hd :=
              Or.inr ⟨c, path, rfl, by rw [hp]; simp⟩
            obtain ⟨⟨l, hl⟩, hhead⟩ := ih x (c :: path) r hr hpre2 e her
            simp only [if_neg (List.cons_ne_nil c path)] at hl
            exact ⟨anchor_shift hl, hhead⟩
        | cons b rest2 =>
          obtain ⟨x, hx, r, hr, her⟩ := mapMJoin_mem _ _ res h e he
          have hpre2 : (c :: path = []) ∨
              ∃ hd tl, c :: path = hd :: tl ∧ x ∈ preds g hd :=
            Or.inr ⟨c, path, rfl, by rw [hp]; exact hx⟩
          obtain ⟨⟨l, hl⟩, hhead⟩ := ih x (c :: path) r hr hpre2 e her
          simp only [if_neg (List.cons_ne_nil c path)] at hl
          exact ⟨anchor_shift hl, hhead⟩

/-- C2 (counterexample): on the two-node graph with single edge from
T_A to A_T, the only sequence returned for target A_T is the backward
list [A_T, T_A]: its last element is not the target (and its first
element is the target, which has a predecessor), contradicting the
claimed forward order. -/
theorem C2_counterexample :
    find_all_paths_to_target gC2 "A_T" = [["A_T", "T_A"]] ∧
    (["A_T", "T_A"] : List String).getLast? ≠ some "A_T" ∧
    preds gC2 "A_T" = ["T_A"] := by decide

/-- C2 (amended): every sequence returned by find_all_paths_to_target
is in backward (target to source) order: its first element is the
target, and its last element either has no predecessor at all or has a
predecessor occurring in the sequence itself (the point where a cycle
was truncated; an AND gate with no inputs falls under the first case). -/
theorem C2_backward_order (g : Graph) (t : String) :
    ∀ p ∈ find_all_paths_to_target g t,
      p.head? = some t ∧
      ∃ x, p.getLast? = some x ∧ (preds g x = [] ∨ ∃ y ∈ p, y ∈ preds g x) := by
  intro p hp
  unfold find_all_paths_to_target at hp
  by_cases hni : (nodesInfo g t).isSome
  · simp only [hni, if_true] at hp
    cases hrec : find_paths_recursive g ((allIds g t).card + 1) t [] with
    | none => rw [hrec] at hp; simp at hp
    | some res =>
      rw [hrec] at hp
      obtain ⟨e, he, rfl⟩ := List.mem_map.mp hp
      obtain ⟨⟨l, hl⟩, ⟨x, hx, hdisj⟩⟩ :=
        find_paths_recursive_sound g _ t [] res hrec (Or.inl rfl) e he
      have hl2 : e = l ++ [t] := by simpa using hl
      constructor
      · rw [List.head?_reverse, hl2, List.getLast?_concat]
      · refine ⟨x, by rw [List.getLast?_reverse, hx], ?_⟩
        rcases hdisj with hnil | ⟨y, hy, hyp⟩
        · exact Or.inl hnil
        · exact Or.inr ⟨y, List.mem_reverse.mpr hy, hyp⟩
  · simp [hni] at hp

theorem C2_witness :
    (["A_T", "T_A"] ∈ find_all_paths_to_target gC2 "A_T") ∧
    ((["A_T", "T_A"] : List String).head? = some "A_T" ∧
     ∃ x, (["A_T", "T_A"] : List String).getLast? = some x ∧
       (preds gC2 x = [] ∨ ∃ y ∈ (["A_T", "T_A"] : List String), y ∈ preds gC2 x)) :=
  ⟨by decide, C2_backward_order gC2 "A_T" ["A_T", "T_A"] (by decide)⟩

theorem PTree.size_pos (t : PTree) : 1 ≤ t.size := by
  cases t with
  | node i cs => rw [PTree.size]; omega

theorem size_le_of_mem_toList : ∀ {c : PTree} (f : PForest), c ∈ f.toList → c.size ≤ f.size
  | c, .nil, h => by simp [PForest.toList] at h
  | c, .cons hd tl, h => by
    rw [PForest.toList] at h
    rw [PForest.size]
    rcases List.mem_cons.mp h with rfl | htl
    · omega
    · have := size_le_of_mem_toList tl htl; omega

theorem noOrF_mem {g : Graph} : ∀ (f : PForest), noOrF g f = true →
    ∀ c ∈ f.toList, noOrT g c = true
  | .nil, _, c, hc => by simp [PForest.toList] at hc
  | .cons hd tl, h, c, hc => by
    rw [noOrF, Bool.and_eq_true] at h
    rw [PForest.toList] at hc
    rcases List.mem_cons.mp hc with rfl | htl
    · exact h.1
    · exact noOrF_mem tl h.2 c htl

theorem splitChildren_eq_toList {g : Graph} : ∀ (f : PForest),
    (∀ c ∈ f.toList, split_tree_at_or_nodes g c = [c]) → splitChildren g f = f.toList
  | .nil, _ => by rw [splitChildren, PForest.toList]
  | .cons hd tl, h => by
    rw [splitChildren, PForest.toList]
    rw [h hd (by rw [PForest.toList]; simp)]
    rw [splitChildren_eq_toList tl (fun c hc => h c (by rw [PForest.toList]; simp [hc]))]
    simp

theorem PForest.ofList_toList : ∀ (f : PForest), PForest.ofList f.toList = f
  | .nil => by rw [PForest.toList, PForest.ofList]
  | .cons hd tl => by rw [PForest.toList, PForest.ofList, PForest.ofList_toList tl]

/-- C6: splitting a tree in which no node outside the AND-typed ones has
more than one child returns exactly the singleton of the input tree,
unchanged. -/
theorem C6_split_no_or (g : Graph) (t : PTree) (h : noOrT g t = true) :
    split_tree_at_or_nodes g t = [t] := by
  suffices H : ∀ n : Nat, ∀ t : PTree, t.size ≤ n → noOrT g t = true →
      split_tree_at_or_nodes g t = [t] from H t.size t le_rfl h
  intro n
  induction n with
  | zero => intro t hsz _; have := PTree.size_pos t; omega
  | succ n ihn =>
    intro t hsz hno
    cases t with
    | node i cs =>
      rw [noOrT, Bool.and_eq_true] at hno
      rw [split_tree_at_or_nodes]
      by_cases hnil : cs.isNil = true
      · simp [hnil]
      · have hchildren : ∀ c ∈ cs.toList, split_tree_at_or_nodes g c = [c] := by
          intro c hc
          apply ihn c
          · have h1 := size_le_of_mem_toList cs hc
            have h2 : (PTree.node i cs).size = 1 + cs.size := by rw [PTree.size]
            omega
          · exact noOrF_mem cs hno.2 c hc
        have hsc : splitChildren g cs = cs.toList := splitChildren_eq_toList cs hchildren
        by_cases hand : isAndId g i = true
        · simp only [hnil, hand, if_true, if_false, Bool.false_eq_true, hsc,
            PForest.ofList_toList]
        · have hor : isAndId g i = true ∨ cs.length ≤ 1 := by simpa using hno.1
          have hlen : cs.length ≤ 1 := by
            rcases hor with hh | hh
            · exact absurd hh hand
            · exact hh
          cases cs with
          | nil => simp [PForest.isNil] at hnil
          | cons c cs2 =>
            cases cs2 with
            | nil =>
              simp only [hnil, hand, if_false, Bool.false_eq_true, hsc]
              rw [PForest.toList, PForest.toList]
              simp
            | cons d cs3 =>
              rw [PForest.length, PForest.length] at hlen
              omega

theorem C6_witness :
    noOrT gC3 tC6 = true ∧ split_tree_at_or_nodes gC3 tC6 = [tC6] :=
  ⟨by decide, C6_split_no_or gC3 tC6 (by decide)⟩

theorem pyInsert_mem {α β : Type} [DecidableEq α] {l : List (α × β)} {k : α} {v : β}
    {kv : α × β} (h : kv ∈ pyInsert l k v) : kv ∈ l ∨ kv = (k, v) := by
  unfold pyInsert at h
  split at h
  · obtain ⟨kv0, hkv0, heq⟩ := List.mem_map.mp h
    by_cases hk : kv0.1 = k
    · right; rw [if_pos hk] at heq; exact heq.symm
    · left; rw [if_neg hk] at heq; rw [← heq]; exact hkv0
  · rcases List.mem_append.mp h with hl | hr
    · exact Or.inl hl
    · right; simpa using hr

theorem classify_node_range {id label ty : String}
    (h : classify_node id label = some ty) : TyOk ty := by
  unfold classify_node at h
  unfold TyOk
  split_ifs at h <;> simp only [Option.some.injEq] at h <;> subst h <;> simp

theorem parse_nodes_Ty_range (lines : List DotLine) :
    ∀ st : List (String × PNodeDecl) × List GEdge,
      (∀ kv ∈ st.1, TyOk kv.2.Ty) →
      ∀ kv ∈ (lines.foldl parseDotStep st).1, TyOk kv.2.Ty := by
  induction lines with
  | nil => intro st h; simpa using h
  | cons l rest ih =>
    intro st h
    rw [List.foldl_cons]
    apply ih
    intro kv hkv
    cases l with
    | edgeLine src tgt => exact h kv hkv
    | nodeLine id label =>
      simp only [parseDotStep] at hkv
      cases hcl : classify_node id label with
      | none => rw [hcl] at hkv; exact h kv hkv
      | some ty =>
        rw [hcl] at hkv
        rcases pyInsert_mem hkv with hold | hnew
        · exact h kv hold
        · rw [hnew]; exact classify_node_range hcl

/-- C9: in the output of parse_dot, every node typed AND and every node
with one of the three channel types has centrality exactly 0, and a node
with nonzero centrality can only be typed trigger, action, OR or logic;
this holds for an arbitrary betweenness-centrality map, so in particular
for the one networkx computes. -/
theorem C9_and_channel_centrality_zero (lines : List DotLine) (γ : String → Option ℚ)
    (n : PNode) (hn : n ∈ (parse_dot lines γ).1) :
    ((n.Ty = "AND" ∨ n.Ty = "physical_channel" ∨ n.Ty = "system_channel" ∨
      n.Ty = "channel") → n.centrality = 0) ∧
    (n.centrality ≠ 0 →
      (n.Ty = "trigger" ∨ n.Ty = "action" ∨ n.Ty = "OR" ∨ n.Ty = "logic")) := by
  unfold parse_dot at hn
  simp only at hn
  obtain ⟨kv, hkv, rfl⟩ := List.mem_map.mp hn
  have hrange := parse_nodes_Ty_range lines ([], []) (by simp) kv hkv
  simp only
  constructor
  · intro hbad
    rw [if_neg]
    rcases hbad with h | h | h | h <;> simp [h]
  · intro hnz
    by_cases hcond : kv.2.Ty ≠ "AND" ∧ kv.2.Ty ≠ "physical_channel" ∧
        kv.2.Ty ≠ "system_channel" ∧ kv.2.Ty ≠ "channel"
    · unfold TyOk at hrange
      rcases hrange with h | h | h | h | h | h | h | h <;>
        simp only [h] <;> simp [h] at hcond ⊢
    · exfalso
      apply hnz
      rw [if_neg hcond]

theorem C9_witness :
    ({ ID := "LOGIC_AND_1", Label := "AND", Ty := "AND", Target := ["A_open_door"],
       Source := ["T_hall_motion"], centrality := 0 } : PNode) ∈
        (parse_dot linesC9 (fun _ => some 7)).1 ∧
    ((({ ID := "LOGIC_AND_1", Label := "AND", Ty := "AND", Target := ["A_open_door"],
         Source := ["T_hall_motion"], centrality := 0 } : PNode).Ty = "AND" ∨
      ({ ID := "LOGIC_AND_1", Label := "AND", Ty := "AND", Target := ["A_open_door"],
         Source := ["T_hall_motion"], centrality := 0 } : PNode).Ty = "physical_channel" ∨
      ({ ID := "LOGIC_AND_1", Label := "AND", Ty := "AND", Target := ["A_open_door"],
         Source := ["T_hall_motion"], centrality := 0 } : PNode).Ty = "system_channel" ∨
      ({ ID := "LOGIC_AND_1", Label := "AND", Ty := "AND", Target := ["A_open_door"],
         Source := ["T_hall_motion"], centrality := 0 } : PNode).Ty = "channel") →
      ({ ID := "LOGIC_AND_1", Label := "AND", Ty := "AND", Target := ["A_open_door"],
         Source := ["T_hall_motion"], centrality := 0 } : PNode).centrality = 0) ∧
    (({ ID := "LOGIC_AND_1", Label := "AND", Ty := "AND", Target := ["A_open_door"],
        Source := ["T_hall_motion"], centrality := 0 } : PNode).centrality ≠ 0 →
      (({ ID := "LOGIC_AND_1", Label := "AND", Ty := "AND", Target := ["A_open_door"],
          Source := ["T_hall_motion"], centrality := 0 } : PNode).Ty = "trigger" ∨
       ({ ID := "LOGIC_AND_1", Label := "AND", Ty := "AND", Target := ["A_open_door"],
          Source := ["T_hall_motion"], centrality := 0 } : PNode).Ty = "action" ∨
       ({ ID := "LOGIC_AND_1", Label := "AND", Ty := "AND", Target := ["A_open_door"],
          Source := ["T_hall_motion"], centrality := 0 } : PNode).Ty = "OR" ∨
       ({ ID := "LOGIC_AND_1", Label := "AND", Ty := "AND", Target := ["A_open_door"],
          Source := ["T_hall_motion"], centrality := 0 } : PNode).Ty = "logic")) :=
  ⟨by decide, C9_and_channel_centrality_zero linesC9 (fun _ => some 7) _ (by decide)⟩

end TopoSem
